import Mathlib

/-!
Verification of the content-acquisition pipeline of `bot.py` (MusicChannelBot).

The Python source is embedded shallowly:
* pure string manipulation (`_clean_text`, `_format_quote_lines`, `textwrap.wrap`)
  becomes pure Lean functions on `List Char` / `String`;
* network results are an explicit environment (`FeedId → Option (List FeedEntry)`,
  `String → Option Nat` for downloads, with `none` standing for a raised
  `aiohttp` error / non-success status);
* `random.shuffle` becomes an explicit function parameter, `random.choice` an
  index parameter;
* the filesystem is a state `St` holding the files (path, byte size) and the
  directories that exist; exceptions become `Option` results, with the state at
  the moment of the raise carried along (matching Python semantics, where files
  already written stay on disk when an exception propagates).

Recursive text functions take an explicit fuel argument (always instantiated
with a sufficient bound) so that every definition reduces by `decide`/`rfl`.
-/

namespace MusicBot

/-- `Track` dataclass of bot.py (lines 34-38). -/
structure Track where
  title : String
  artist : String
  audio_url : String
deriving DecidableEq, Repr

/-- Python whitespace characters matched by `\s` / `str.strip()` for ASCII text
(`' '`, `'\t'`, `'\n'`, `'\r'`, `'\x0b'`, `'\x0c'`). -/
def isPySpace (c : Char) : Bool :=
  c = ' ' || c = '\t' || c = '\n' || c = '\r' || c = '\x0b' || c = '\x0c'

/-- Scan for the first `'>'`; return the remainder after it.  Helper for the
regex `<[^>]+>` of `_clean_text` (bot.py line 484). -/
def skipToClose : List Char → Option (List Char)
  | [] => none
  | '>' :: rest => some rest
  | _ :: rest => skipToClose rest

/-- Given the characters after a `'<'`, return the remainder after the closing
`'>'` if the regex `<[^>]+>` matches here (at least one non-`'>'` character
before the `'>'`). -/
def closeTag : List Char → Option (List Char)
  | [] => none
  | '>' :: _ => none
  | _ :: rest => skipToClose rest

/-- `re.sub(r"<[^>]+>", " ", value)` of `_clean_text` (bot.py line 484),
with fuel (one unit per emitted character; `fuel = length` suffices). -/
def stripTagsF : Nat → List Char → List Char
  | 0, l => l
  | fuel + 1, l =>
    match l with
    | [] => []
    | c :: rest =>
      if c = '<' then
        match closeTag rest with
        | some rem => ' ' :: stripTagsF fuel rem
        | none => c :: stripTagsF fuel rest
      else c :: stripTagsF fuel rest

/-- `re.sub(r"\s+", " ", text)`: collapse runs of whitespace to a single
space (bot.py line 485), with fuel. -/
def collapseWsF : Nat → List Char → List Char
  | 0, l => l
  | fuel + 1, l =>
    match l with
    | [] => []
    | c :: rest =>
      if isPySpace c then ' ' :: collapseWsF fuel (rest.dropWhile isPySpace)
      else c :: collapseWsF fuel rest

/-- Python `str.strip()` on the ASCII whitespace class. -/
def pyStripL (l : List Char) : List Char :=
  ((l.dropWhile isPySpace).reverse.dropWhile isPySpace).reverse

/-- `MusicChannelBot._clean_text` (bot.py lines 482-486): drop HTML tags,
collapse whitespace, strip. -/
def clean_text (s : String) : String :=
  let l := stripTagsF s.toList.length s.toList
  String.mk (pyStripL (collapseWsF l.length l))

/-- Modelled from the spec (section 3): `normalize` for the Candidate identity
key — case-insensitive and whitespace-collapsed.  The source never computes
this key; it is defined here only to state the spec's dedup property. -/
def normalizeSpec (s : String) : String :=
  let l := (s.toList.map Char.toLower)
  String.mk (pyStripL (collapseWsF l.length l))

/-- Modelled from the spec (section 3): the Candidate identity key,
`normalize(title) + "::" + normalize(artist)`. -/
def identityKey (t : Track) : String :=
  normalizeSpec t.title ++ "::" ++ normalizeSpec t.artist

/-- One entry of a feedparser `links` / `enclosures` list: the `href`,
`type` and `rel` attributes read by `_extract_track` (bot.py lines 558-574). -/
structure FeedLink where
  href : String := ""
  ltype : String := ""
  rel : String := ""
deriving DecidableEq, Repr

/-- The fields of a feedparser entry read by `_extract_track`
(bot.py lines 554-587).  `none` models a missing key. -/
structure FeedEntry where
  links : List FeedLink := []
  enclosures : List FeedLink := []
  title : Option String := none
  author : Option String := none
  creator : Option String := none
  artist : Option String := none
deriving DecidableEq, Repr

/-- Does `l` start with `pat`? -/
def startsWithL : List Char → List Char → Bool
  | [], _ => true
  | _ :: _, [] => false
  | p :: ps, c :: cs => p = c && startsWithL ps cs

/-- Python `pat in s` substring test on character lists. -/
def hasSubL (pat : List Char) : List Char → Bool
  | [] => startsWithL pat []
  | c :: cs => startsWithL pat (c :: cs) || hasSubL pat cs

/-- Python `s.lower()` on ASCII text, as a character list. -/
def lowerL (s : String) : List Char := s.toList.map Char.toLower

/-- Python `s.endswith(suf)` on character lists. -/
def endsWithL (l suf : List Char) : Bool := startsWithL suf.reverse l.reverse

/-- Python `"audio" in s.lower()`. -/
def containsAudio (s : String) : Bool :=
  hasSubL "audio".toList (lowerL s)

/-- The `links` loop of `_extract_track` (bot.py lines 558-567): collect
candidate audio URLs in order. -/
def linkCandidates (links : List FeedLink) : List String :=
  links.foldr
    (fun item acc =>
      if item.href = "" then acc
      else if endsWithL (lowerL item.href) ".mp3".toList then item.href :: acc
      else if containsAudio item.ltype || item.rel = "enclosure" then item.href :: acc
      else acc) []

/-- The `enclosures` fallback loop of `_extract_track` (bot.py lines 569-574). -/
def enclosureCandidates (encls : List FeedLink) : List String :=
  encls.foldr
    (fun encl acc =>
      if encl.href != "" && (endsWithL (lowerL encl.href) ".mp3".toList || containsAudio encl.ltype)
      then encl.href :: acc else acc) []

/-- Python `a or b` on optional strings (`None` and `""` are falsy). -/
def pyOrS : Option String → Option String → Option String
  | some s, b => if s = "" then b else some s
  | none, b => b

/-- Python `o or d` where `d` is a non-empty default string. -/
def pyOrD (o : Option String) (d : String) : String :=
  match o with
  | some s => if s = "" then d else s
  | none => d

/-- `MusicChannelBot._extract_track` (bot.py lines 554-587). -/
def extract_track (e : FeedEntry) : Option Track :=
  let urls := linkCandidates e.links
  let urls := if urls = [] then enclosureCandidates e.enclosures else urls
  match urls with
  | [] => none
  | u :: _ =>
    let title := clean_text (e.title.getD "Unknown track")
    let artist := clean_text (pyOrD (pyOrS e.author (pyOrS e.creator e.artist)) "Unknown artist")
    some { title := title.take 128, artist := artist.take 64, audio_url := u }

/-- The feed URLs of bot.py (lines 48-124), abstracted to identifiers (the
concrete archive.org query strings play no role in the claims). -/
inductive FeedId where
  | pop
  | rock
  | hiphop
  | electronic
  | general
  | popular
deriving DecidableEq, Repr

/-- `MUSIC_FEEDS_BY_GENRE.get(genre, [])` (bot.py lines 48-97). -/
def MUSIC_FEEDS_BY_GENRE (genre : String) : List FeedId :=
  if genre = "Pop" then [.pop]
  else if genre = "Rock" then [.rock]
  else if genre = "Hip-Hop" then [.hiphop]
  else if genre = "Electronic" then [.electronic]
  else []

/-- `GENERAL_MUSIC_FEEDS` (bot.py lines 99-110). -/
def GENERAL_MUSIC_FEEDS : List FeedId := [.general]

/-- `POPULAR_MUSIC_FEEDS` (bot.py lines 112-124). -/
def POPULAR_MUSIC_FEEDS : List FeedId := [.popular]

/-- `EMERGENCY_TRACKS` (bot.py lines 126-137). -/
def EMERGENCY_TRACKS : List Track :=
  [ { title := "SoundHelix Song 1", artist := "SoundHelix",
      audio_url := "https://www.soundhelix.com/examples/mp3/SoundHelix-Song-1.mp3" },
    { title := "SoundHelix Song 2", artist := "SoundHelix",
      audio_url := "https://www.soundhelix.com/examples/mp3/SoundHelix-Song-2.mp3" } ]

/-- `random.choice(EMERGENCY_TRACKS)` (bot.py line 518), the random draw
modelled by an index parameter. -/
def chooseEmergency (i : Nat) : Track :=
  EMERGENCY_TRACKS.getD (i % EMERGENCY_TRACKS.length) ⟨"", "", ""⟩

/-- A feed environment: the parsed entries each feed URL yields, or `none`
when fetching/parsing raises (caught at bot.py lines 548-549). -/
def FeedEnv : Type := FeedId → Option (List FeedEntry)

/-- The entry loop of `fetch_tracks_from_feeds` (bot.py lines 537-544):
extract tracks, skipping entries whose `audio_url` was already seen. -/
def processEntries : List FeedEntry → List Track → List String → List Track × List String
  | [], pool, seen => (pool, seen)
  | e :: rest, pool, seen =>
    match extract_track e with
    | none => processEntries rest pool seen
    | some t =>
      if t.audio_url ∈ seen then processEntries rest pool seen
      else processEntries rest (pool ++ [t]) (t.audio_url :: seen)

/-- The feed loop of `fetch_tracks_from_feeds` (bot.py lines 530-549): a
failing feed contributes nothing; after a successful feed the loop breaks
once the pool holds `max 12 min_required` tracks. -/
def fetchPoolGo (env : FeedEnv) (minReq : Nat) :
    List FeedId → List Track → List String → List Track
  | [], pool, _ => pool
  | f :: rest, pool, seen =>
    match env f with
    | none => fetchPoolGo env minReq rest pool seen
    | some entries =>
      let ps := processEntries entries pool seen
      if max 12 minReq ≤ ps.1.length then ps.1
      else fetchPoolGo env minReq rest ps.1 ps.2

/-- The deduplicated pool accumulated by `fetch_tracks_from_feeds`
(bot.py lines 523-552) before the final `random.shuffle`. -/
def fetchPool (env : FeedEnv) (feeds : List FeedId) (minReq : Nat) : List Track :=
  fetchPoolGo env minReq feeds [] []

/-- `MusicChannelBot.fetch_tracks_from_feeds` (bot.py lines 523-552).
`sOk` models `self.session` being initialized (line 524 raises otherwise);
`shuffle` models `random.shuffle` (line 551). -/
def fetch_tracks_from_feeds (sOk : Bool) (env : FeedEnv)
    (shuffle : List Track → List Track) (feeds : List FeedId) (minReq : Nat) :
    Option (List Track) :=
  if sOk then some (shuffle (fetchPool env feeds minReq)) else none

/-- `fetch_tracks_with_fallback` (bot.py lines 499-521), instrumented with the
trace of stage queries actually issued: the returned first component lists, in
order, each stage id together with the (shuffled) pool its query produced. -/
def fallbackTrace (env : FeedEnv) (shuffle : List Track → List Track)
    (ci : Nat) (genre : String) :
    List (Nat × List Track) × (List Track × Nat) :=
  let p1 := shuffle (fetchPool env (MUSIC_FEEDS_BY_GENRE genre) 2)
  if 2 ≤ p1.length then ([(1, p1)], (p1.take 2, 1)) else
  let p2 := shuffle (fetchPool env GENERAL_MUSIC_FEEDS 2)
  if 2 ≤ p2.length then ([(1, p1), (2, p2)], (p2.take 2, 2)) else
  let p3 := shuffle (fetchPool env POPULAR_MUSIC_FEEDS 2)
  if 2 ≤ p3.length then ([(1, p1), (2, p2), (3, p3)], (p3.take 2, 3)) else
  let p4 := shuffle (fetchPool env
    (MUSIC_FEEDS_BY_GENRE genre ++ GENERAL_MUSIC_FEEDS ++ POPULAR_MUSIC_FEEDS) 1)
  let tr := [(1, p1), (2, p2), (3, p3), (4, p4)]
  if p4.isEmpty then (tr, (EMERGENCY_TRACKS.take 2, 4))
  else
    let chosen := p4.take 1
    let chosen := if chosen.length < 2 then chosen ++ [chooseEmergency ci] else chosen
    (tr, (chosen, 4))

/-- `MusicChannelBot.fetch_tracks_with_fallback` (bot.py lines 499-521):
the `(tracks, stage_used)` result.  `none` models the `RuntimeError` raised
when the HTTP session is not initialized. -/
def fetch_tracks_with_fallback (sOk : Bool) (env : FeedEnv)
    (shuffle : List Track → List Track) (ci : Nat) (genre : String) :
    Option (List Track × Nat) :=
  if sOk then some (fallbackTrace env shuffle ci genre).2 else none

/-! ### textwrap embedding

`_format_quote_lines` (bot.py lines 488-497) calls `textwrap.wrap(text, width=52)`
with default options.  The functions below model CPython's `textwrap` for
hyphen-free text: with no `'-'` in the input, the default `break_on_hyphens`
chunking coincides with plain whitespace-run chunking, which is what is
implemented here.  All functions are fuel-based so they reduce by `decide`. -/

/-- `str.expandtabs()` with tab size 8 (column resets on `'\n'`/`'\r'`). -/
def expandTabs : List Char → Nat → List Char
  | [], _ => []
  | '\t' :: rest, col => List.replicate (8 - col % 8) ' ' ++ expandTabs rest (col + (8 - col % 8))
  | '\n' :: rest, _ => '\n' :: expandTabs rest 0
  | '\r' :: rest, _ => '\r' :: expandTabs rest 0
  | c :: rest, col => c :: expandTabs rest (col + 1)

/-- The `replace_whitespace` translation of `textwrap`: each of
`'\t' '\n' '\x0b' '\x0c' '\r'` becomes a space. -/
def mungeChar (c : Char) : Char :=
  if c = '\t' || c = '\n' || c = '\x0b' || c = '\x0c' || c = '\r' then ' ' else c

/-- Split into alternating maximal runs of spaces / non-spaces (the
`textwrap` chunking for hyphen-free text).  Fuel `= length` suffices. -/
def toChunksF : Nat → List Char → List (List Char)
  | 0, _ => []
  | _ + 1, [] => []
  | fuel + 1, c :: rest =>
    if c = ' ' then
      ((c :: rest).takeWhile (fun x => x = ' ')) ::
        toChunksF fuel ((c :: rest).dropWhile (fun x => x = ' '))
    else
      ((c :: rest).takeWhile (fun x => x ≠ ' ')) ::
        toChunksF fuel ((c :: rest).dropWhile (fun x => x ≠ ' '))

/-- The greedy inner loop of `textwrap._wrap_chunks`: pop chunks onto the
current line while they fit.  Returns the current line (with its length)
and the remaining chunks. -/
def wrapLine (width : Nat) : List (List Char) → List (List Char) → Nat →
    (List (List Char) × Nat) × List (List Char)
  | [], cur, curlen => ((cur, curlen), [])
  | ch :: rest, cur, curlen =>
    if curlen + ch.length ≤ width then wrapLine width rest (cur ++ [ch]) (curlen + ch.length)
    else ((cur, curlen), ch :: rest)

/-- `textwrap._handle_long_word` with `break_long_words=True` for a
hyphen-free chunk: break at `space_left`. -/
def handleLong (width curlen : Nat) (chunks cur : List (List Char)) :
    List (List Char) × List (List Char) :=
  match chunks with
  | [] => (cur, chunks)
  | ch :: rest =>
    if width < ch.length then
      let spaceLeft := if width < 1 then 1 else width - curlen
      (cur ++ [ch.take spaceLeft], ch.drop spaceLeft :: rest)
    else (cur, chunks)

/-- A chunk that `str.strip()`s to the empty string. -/
def isBlankChunk (ch : List Char) : Bool := ch.all isPySpace

/-- Drop a trailing all-whitespace chunk from the current line
(`drop_whitespace=True`). -/
def dropTrailingBlank (cur : List (List Char)) : List (List Char) :=
  match cur.getLast? with
  | some ch => if isBlankChunk ch then cur.dropLast else cur
  | none => cur

/-- One iteration of the outer loop of `textwrap._wrap_chunks` (defaults: no
indents, `drop_whitespace`, `break_long_words`, no `max_lines`): drop a
leading blank chunk (if a line was already emitted), greedily fill a line,
break a long word, drop a trailing blank chunk, emit the line.  Returns the
remaining chunks and the updated lines. -/
def wrapStep (width : Nat) (chunks lines : List (List Char)) :
    List (List Char) × List (List Char) :=
  match chunks with
  | [] => ([], lines)
  | ch0 :: rest0 =>
    let chunks1 := if isBlankChunk ch0 && !lines.isEmpty then rest0 else ch0 :: rest0
    match chunks1 with
    | [] => ([], lines)
    | _ :: _ =>
      let step := wrapLine width chunks1 [] 0
      let step2 := handleLong width step.1.2 step.2 step.1.1
      let cur := dropTrailingBlank step2.1
      (step2.2, if cur.isEmpty then lines else lines ++ [cur.flatten])

/-- The outer loop of `textwrap._wrap_chunks`, iterated with fuel. -/
def wrapChunks (width : Nat) : Nat → List (List Char) → List (List Char) → List (List Char)
  | 0, _, lines => lines
  | fuel + 1, chunks, lines =>
    match chunks with
    | [] => lines
    | ch0 :: rest0 =>
      let r := wrapStep width (ch0 :: rest0) lines
      wrapChunks width fuel r.1 r.2

/-- Fuel bound for `wrapChunks`: every iteration pops a chunk or shortens the
front chunk by at least one character. -/
def wrapFuel (chunks : List (List Char)) : Nat :=
  (chunks.map List.length).sum + chunks.length + 1

/-- `textwrap.wrap(text, width)` with default options, for hyphen-free text. -/
def pyWrap (text : List Char) (width : Nat) : List (List Char) :=
  let munged := (expandTabs text 0).map mungeChar
  let chunks := toChunksF munged.length munged
  wrapChunks width (wrapFuel chunks) chunks []

/-- `"\n".join(lines)` on character lists. -/
def joinNl : List (List Char) → List Char
  | [] => []
  | [l] => l
  | l :: rest => l ++ '\n' :: joinNl rest

/-- Number of newline-separated lines of a string, as produced by splitting
on `'\n'` (the empty string counts as one line). -/
def countLines (s : String) : Nat := s.toList.count '\n' + 1

/-- `MusicChannelBot._format_quote_lines` (bot.py lines 488-497). -/
def format_quote_lines (text : String) : String :=
  if text = "" then "Music is life." else
  let w := pyWrap text.toList 52
  let w := if w.length < 2 then pyWrap (text ++ " Feel every beat.").toList 52 else w
  let w := if 4 < w.length then w.take 4 else w
  String.mk (joinNl w)

/-- The fields of a quote-feed entry read by `fetch_quote`
(bot.py line 477). -/
structure QuoteEntry where
  summary : Option String := none
  title : Option String := none
deriving DecidableEq, Repr

/-- The quote-feed loop of `fetch_quote` (bot.py lines 462-471): failing
feeds contribute nothing, successful ones extend `entries`. -/
def quoteEntries : List (Option (List QuoteEntry)) → List QuoteEntry
  | [] => []
  | none :: rest => quoteEntries rest
  | some es :: rest => es ++ quoteEntries rest

/-- `MusicChannelBot.fetch_quote` (bot.py lines 458-480).  `qenv` gives each
of the two `QUOTE_FEEDS` responses; `pick` models `random.choice`. -/
def fetch_quote (sOk : Bool) (qenv : List (Option (List QuoteEntry))) (pick : Nat) :
    Option String :=
  if sOk then
    let entries := quoteEntries qenv
    match entries with
    | [] => some ("Music gives a soul to the universe, wings to the mind, " ++
        "flight to the imagination, and life to everything.")
    | e :: rest =>
      let sample := (e :: rest).getD (pick % (e :: rest).length) {}
      let raw := pyOrD (pyOrS sample.summary sample.title) "Music is life."
      some (format_quote_lines (clean_text raw))
  else none

/-! ### Filesystem state, asset downloads, orchestration

Exceptions become `Option` results paired with the filesystem state at the
moment the exception propagates.  Fresh names (`uuid.uuid4().hex`) are
modelled by a counter in the state. -/

/-- `self.temp_root = Path(tempfile.gettempdir()) / "music_channel_bot"`
(bot.py line 178), with the system temp dir rendered as `/tmp`. -/
def temp_root : String := "/tmp/music_channel_bot"

/-- Filesystem state: the files on disk (path with byte size), the
directories that exist, and a counter supplying fresh `uuid` name parts. -/
structure St where
  files : List (String × Nat)
  dirs : List String
  ctr : Nat
deriving DecidableEq, Repr

/-- State after `MusicChannelBot.__init__` (bot.py lines 177-179): the single
shared temp directory exists and no files have been written. -/
def initSt : St := { files := [], dirs := [temp_root], ctr := 0 }

/-- Decimal digit character. -/
def digitChar (d : Nat) : Char :=
  match d with
  | 0 => '0' | 1 => '1' | 2 => '2' | 3 => '3' | 4 => '4'
  | 5 => '5' | 6 => '6' | 7 => '7' | 8 => '8' | _ => '9'

/-- Decimal digits of a natural number (fuel-based; `fuel = n + 1` suffices). -/
def natDigitsF : Nat → Nat → List Char
  | 0, _ => []
  | fuel + 1, n => if n < 10 then [digitChar n] else natDigitsF fuel (n / 10) ++ [digitChar (n % 10)]

/-- Decimal rendering of a natural number, used to model the unique
`uuid.uuid4().hex` name parts. -/
def natName (n : Nat) : String := String.mk (natDigitsF (n + 1) n)

/-- `self.temp_root / name`. -/
def tmpPath (name : String) : String := temp_root ++ "/" ++ name

/-- `path.exists()`. -/
def fileExists (st : St) (path : String) : Bool := st.files.any (fun f => f.1 = path)

/-- `path.unlink(missing_ok=True)`: remove the (unique, in a real filesystem)
entry with this path. -/
def eraseFile : List (String × Nat) → String → List (String × Nat)
  | [], _ => []
  | f :: rest, path => if f.1 = path then rest else f :: eraseFile rest path

/-- Environment of `fetch_unsplash_image` (bot.py lines 435-456): whether the
API call succeeds, the `urls.regular` field of its JSON, and the outcome of
the image GET (`none` = raised, `some n` = payload of `n` bytes). -/
structure ImgEnv where
  apiOk : Bool := true
  imageUrl : Option String := none
  imgDl : Option Nat := none

/-- `MusicChannelBot.fetch_unsplash_image` (bot.py lines 435-456): on success
the image file is written to the shared temp directory and its path returned;
any failure raises before a file is written. -/
def fetch_unsplash_image (sOk : Bool) (e : ImgEnv) (st : St) : Option String × St :=
  if !sOk then (none, st)
  else if !e.apiOk then (none, st)
  else
    match e.imageUrl with
    | none => (none, st)
    | some _ =>
      let path := tmpPath ("image_" ++ natName st.ctr ++ ".jpg")
      let st := { st with ctr := st.ctr + 1 }
      match e.imgDl with
      | none => (none, st)
      | some n => (some path, { st with files := (path, n) :: st.files })

/-- A download environment: payload size per URL, `none` when the GET or
`raise_for_status` raises. -/
def DlEnv : Type := String → Option Nat

/-- One iteration of the guarded per-track loop of `download_tracks`
(bot.py lines 594-606): HTTP failure writes nothing; an empty payload is
written, detected, and unlinked again; both failures are caught (`none`). -/
def downloadOneTrack (dl : DlEnv) (t : Track) (idx : Nat) (st : St) : Option String × St :=
  let path := tmpPath ("track_" ++ natName idx ++ "_" ++ natName st.ctr ++ ".mp3")
  let st := { st with ctr := st.ctr + 1 }
  match dl t.audio_url with
  | none => (none, st)
  | some n =>
    let st := { st with files := (path, n) :: st.files }
    if n = 0 then (none, { st with files := eraseFile st.files path })
    else (some path, st)

/-- The guarded per-track loop of `download_tracks` (bot.py lines 593-606),
instrumented with the list of attempted audio URLs (third component). -/
def downloadLoop (dl : DlEnv) : List Track → Nat → St → List String × St × List String
  | [], _, st => ([], st, [])
  | t :: rest, idx, st =>
    let r := downloadOneTrack dl t idx st
    let rec₂ := downloadLoop dl rest (idx + 1) r.2
    ((match r.1 with | some p => p :: rec₂.1 | none => rec₂.1), rec₂.2.1,
      t.audio_url :: rec₂.2.2)

/-- The unguarded emergency fallback loop of `download_tracks`
(bot.py lines 608-615): a failing GET propagates (`none`); note no
empty-payload check is performed here. -/
def fallbackDl (dl : DlEnv) : List Track → St → Option (List String) × St
  | [], st => (some [], st)
  | t :: rest, st =>
    let path := tmpPath ("fallback_" ++ natName st.ctr ++ ".mp3")
    let st := { st with ctr := st.ctr + 1 }
    match dl t.audio_url with
    | none => (none, st)
    | some n =>
      let st := { st with files := (path, n) :: st.files }
      match fallbackDl dl rest st with
      | (none, st') => (none, st')
      | (some ps, st') => (some (path :: ps), st')

/-- `MusicChannelBot.download_tracks` (bot.py lines 589-617). -/
def download_tracks (sOk : Bool) (dl : DlEnv) (tracks : List Track) (st : St) :
    Option (List String) × St :=
  if !sOk then (none, st)
  else
    let r := downloadLoop dl tracks 1 st
    let paths := r.1
    let st := r.2.1
    if paths.length < 2 then
      match fallbackDl dl (EMERGENCY_TRACKS.take (2 - paths.length)) st with
      | (none, st') => (none, st')
      | (some more, st') => (some ((paths ++ more).take 2), st')
    else (some (paths.take 2), st)

/-- The `payload` dict assembled by `genre_selected` (bot.py lines 327-333). -/
structure Payload where
  genre : String
  quote : String
  image_path : String
  tracks : List Track
  track_files : List String
deriving DecidableEq, Repr

/-- The whole external environment of one acquisition attempt. -/
structure AcqEnv where
  feedEnv : FeedEnv
  qenv : List (Option (List QuoteEntry))
  qpick : Nat
  img : ImgEnv
  dl : DlEnv
  shuffle : List Track → List Track
  choiceIdx : Nat

/-- The `try` body of `genre_selected` (bot.py lines 315-346) up to storing
the payload, with the blanket `except` block: on any raised error the result
is `none` and the filesystem is left exactly as the failing step left it
(the handler at lines 341-346 performs no cleanup). -/
def genre_selected_core (sOk : Bool) (e : AcqEnv) (genre : String) (st : St) :
    Option Payload × St :=
  match fetch_quote sOk e.qenv e.qpick with
  | none => (none, st)
  | some quote =>
    match fetch_unsplash_image sOk e.img st with
    | (none, st1) => (none, st1)
    | (some imagePath, st1) =>
      match fetch_tracks_with_fallback sOk e.feedEnv e.shuffle e.choiceIdx genre with
      | none => (none, st1)
      | some ts =>
        match download_tracks sOk e.dl ts.1 st1 with
        | (none, st2) => (none, st2)
        | (some files, st2) =>
          (some { genre := genre, quote := quote, image_path := imagePath,
                  tracks := ts.1, track_files := files }, st2)

/-- The deletion loop of `cleanup_post_payload` (bot.py lines 647-650):
unlink each existing path, recording which paths were actually deleted. -/
def cleanupPaths : List String → St → St × List String
  | [], st => (st, [])
  | path :: rest, st =>
    if fileExists st path then
      let r := cleanupPaths rest { st with files := eraseFile st.files path }
      (r.1, path :: r.2)
    else cleanupPaths rest st

/-- `MusicChannelBot.cleanup_post_payload` (bot.py lines 647-650): release the
bundle by unlinking its image and track files (directories are untouched). -/
def cleanup_post_payload (p : Payload) (st : St) : St × List String :=
  cleanupPaths (p.image_path :: p.track_files) st

/-- The parent directory of a path: everything before the last `'/'`
(empty if there is no `'/'`). -/
def parentDirL (l : List Char) : List Char :=
  match l.reverse.dropWhile (fun c => c ≠ '/') with
  | [] => []
  | _ :: rest => rest.reverse

/-- Parent directory of a path string. -/
def parentDir (s : String) : String := String.mk (parentDirL s.toList)

/-! ### Helper lemmas: release / cleanup -/

lemma fileExists_iff_mem (st : St) (path : String) :
    fileExists st path = true ↔ path ∈ st.files.map Prod.fst := by
  constructor
  · intro h
    rcases List.any_eq_true.mp h with ⟨f, hf, hp⟩
    exact List.mem_map.mpr ⟨f, hf, of_decide_eq_true hp⟩
  · intro h
    rcases List.mem_map.mp h with ⟨f, hf, hp⟩
    exact List.any_eq_true.mpr ⟨f, hf, decide_eq_true hp⟩

lemma eraseFile_keys_sublist (fs : List (String × Nat)) (path : String) :
    List.Sublist ((eraseFile fs path).map Prod.fst) (fs.map Prod.fst) := by
  induction fs with
  | nil => simp [eraseFile]
  | cons f rest ih =>
    by_cases h : f.1 = path
    · simpa [eraseFile, h] using List.sublist_cons_self f.1 (rest.map Prod.fst)
    · simpa [eraseFile, h] using ih.cons₂ f.1

lemma eraseFile_absent {fs : List (String × Nat)} {path : String}
    (h : (fs.map Prod.fst).Nodup) : path ∉ (eraseFile fs path).map Prod.fst := by
  induction fs with
  | nil => simp [eraseFile]
  | cons f rest ih =>
    rcases List.nodup_cons.mp h with ⟨hni, hnd⟩
    by_cases hf : f.1 = path
    · simpa [eraseFile, hf] using fun hmem => hni (hf ▸ hmem)
    · intro hmem
      simp only [eraseFile, if_neg hf, List.map_cons, List.mem_cons] at hmem
      rcases hmem with hcase | hcase
      · exact hf hcase.symm
      · exact ih hnd hcase

lemma eraseFile_absent_mono {fs : List (String × Nat)} {p q : String}
    (h : p ∉ fs.map Prod.fst) : p ∉ (eraseFile fs q).map Prod.fst :=
  fun hmem => h ((eraseFile_keys_sublist fs q).subset hmem)

lemma cleanupPaths_dirs_ctr : ∀ (l : List String) (st : St),
    ((cleanupPaths l st).1).dirs = st.dirs ∧ ((cleanupPaths l st).1).ctr = st.ctr := by
  intro l
  induction l with
  | nil => intro st; simp [cleanupPaths]
  | cons path rest ih =>
    intro st
    by_cases hex : fileExists st path = true
    · simpa [cleanupPaths, hex] using ih { st with files := eraseFile st.files path }
    · simpa [cleanupPaths, Bool.of_not_eq_true hex] using ih st

lemma cleanupPaths_absent_mono : ∀ (l : List String) (st : St) {p : String},
    p ∉ st.files.map Prod.fst → p ∉ ((cleanupPaths l st).1).files.map Prod.fst := by
  intro l
  induction l with
  | nil => intro st p h; simpa [cleanupPaths] using h
  | cons path rest ih =>
    intro st p h
    by_cases hex : fileExists st path = true
    · simpa [cleanupPaths, hex] using
        ih { st with files := eraseFile st.files path } (eraseFile_absent_mono h)
    · simpa [cleanupPaths, Bool.of_not_eq_true hex] using ih st h

lemma cleanupPaths_removes : ∀ (l : List String) (st : St),
    (st.files.map Prod.fst).Nodup →
    ∀ path ∈ l, path ∉ ((cleanupPaths l st).1).files.map Prod.fst := by
  intro l
  induction l with
  | nil => intro st _ q hq; exact absurd hq (List.not_mem_nil q)
  | cons path rest ih =>
    intro st h q hq
    by_cases hex : fileExists st path = true
    · rcases List.mem_cons.mp hq with hq' | hq'
      · subst hq'
        simpa [cleanupPaths, hex] using
          cleanupPaths_absent_mono rest { st with files := eraseFile st.files q }
            (eraseFile_absent h)
      · simpa [cleanupPaths, hex] using
          ih { st with files := eraseFile st.files path }
            (h.sublist (eraseFile_keys_sublist st.files path)) q hq'
    · rcases List.mem_cons.mp hq with hq' | hq'
      · subst hq'
        have habs : q ∉ st.files.map Prod.fst :=
          fun hmem => hex ((fileExists_iff_mem st q).mpr hmem)
        simpa [cleanupPaths, Bool.of_not_eq_true hex] using
          cleanupPaths_absent_mono rest st habs
      · simpa [cleanupPaths, Bool.of_not_eq_true hex] using ih st h q hq'

lemma cleanupPaths_noop : ∀ (l : List String) (st : St),
    (∀ path ∈ l, path ∉ st.files.map Prod.fst) → cleanupPaths l st = (st, []) := by
  intro l
  induction l with
  | nil => intro st _; simp [cleanupPaths]
  | cons path rest ih =>
    intro st h
    have hex : fileExists st path = false := by
      cases hfe : fileExists st path
      · rfl
      · exact absurd ((fileExists_iff_mem st path).mp hfe)
          (h path (List.mem_cons_self path rest))
    simp [cleanupPaths, hex, ih st (fun q hq => h q (List.mem_cons_of_mem path hq))]

/-- C9 — `cleanup_post_payload` (release) is idempotent: assuming the real-
filesystem invariant that paths are unique, a second release of the same
payload leaves the filesystem unchanged and attempts no deletion at all. -/
theorem c9_release_idempotent (p : Payload) (st : St)
    (h : (st.files.map Prod.fst).Nodup) :
    (cleanup_post_payload p (cleanup_post_payload p st).1).1 = (cleanup_post_payload p st).1 ∧
    (cleanup_post_payload p (cleanup_post_payload p st).1).2 = [] := by
  have hrem := cleanupPaths_removes (p.image_path :: p.track_files) st h
  have hnoop := cleanupPaths_noop (p.image_path :: p.track_files)
    ((cleanupPaths (p.image_path :: p.track_files) st).1) hrem
  unfold cleanup_post_payload
  rw [hnoop]
  exact ⟨rfl, rfl⟩

/-- Witness for C9 at a concrete payload and filesystem. -/
theorem c9_release_idempotent_witness :
    (cleanup_post_payload ⟨"Pop", "q", "/tmp/music_channel_bot/image_0.jpg", [],
        ["/tmp/music_channel_bot/track_1_1.mp3"]⟩
      (cleanup_post_payload ⟨"Pop", "q", "/tmp/music_channel_bot/image_0.jpg", [],
        ["/tmp/music_channel_bot/track_1_1.mp3"]⟩
        { files := [("/tmp/music_channel_bot/image_0.jpg", 5),
                    ("/tmp/music_channel_bot/track_1_1.mp3", 9)],
          dirs := [temp_root], ctr := 2 }).1).1 =
    (cleanup_post_payload ⟨"Pop", "q", "/tmp/music_channel_bot/image_0.jpg", [],
        ["/tmp/music_channel_bot/track_1_1.mp3"]⟩
      { files := [("/tmp/music_channel_bot/image_0.jpg", 5),
                  ("/tmp/music_channel_bot/track_1_1.mp3", 9)],
        dirs := [temp_root], ctr := 2 }).1 ∧
    (cleanup_post_payload ⟨"Pop", "q", "/tmp/music_channel_bot/image_0.jpg", [],
        ["/tmp/music_channel_bot/track_1_1.mp3"]⟩
      (cleanup_post_payload ⟨"Pop", "q", "/tmp/music_channel_bot/image_0.jpg", [],
        ["/tmp/music_channel_bot/track_1_1.mp3"]⟩
        { files := [("/tmp/music_channel_bot/image_0.jpg", 5),
                    ("/tmp/music_channel_bot/track_1_1.mp3", 9)],
          dirs := [temp_root], ctr := 2 }).1).2 = [] :=
  c9_release_idempotent _ _ (by decide)

/-! ### Helper lemmas: discovery pool invariants -/

lemma processEntries_inv : ∀ (entries : List FeedEntry) (pool : List Track) (seen : List String),
    (∀ u ∈ pool.map Track.audio_url, u ∈ seen) →
    (pool.map Track.audio_url).Nodup →
    (∀ u ∈ (processEntries entries pool seen).1.map Track.audio_url,
        u ∈ (processEntries entries pool seen).2) ∧
    ((processEntries entries pool seen).1.map Track.audio_url).Nodup := by
  intro entries
  induction entries with
  | nil => intro pool seen hsub hnd; exact ⟨hsub, hnd⟩
  | cons e rest ih =>
    intro pool seen hsub hnd
    cases hx : extract_track e with
    | none => simpa [processEntries, hx] using ih pool seen hsub hnd
    | some t =>
      by_cases hseen : t.audio_url ∈ seen
      · simpa [processEntries, hx, hseen] using ih pool seen hsub hnd
      · have hsub' : ∀ u ∈ (pool ++ [t]).map Track.audio_url, u ∈ t.audio_url :: seen := by
          intro u hu
          have hu2 : (∃ a ∈ pool, a.audio_url = u) ∨ u = t.audio_url := by simpa using hu
          rcases hu2 with ⟨a, ha, hau⟩ | hu3
          · exact List.mem_cons_of_mem _ (hsub u (List.mem_map.mpr ⟨a, ha, hau⟩))
          · simp [hu3]
        have hnd' : ((pool ++ [t]).map Track.audio_url).Nodup := by
          rw [List.map_append, List.nodup_append_comm]
          simp only [List.map_cons, List.map_nil, List.nil_append, List.singleton_append,
            List.nodup_cons]
          exact ⟨fun hmem => hseen (hsub _ hmem), hnd⟩
        simpa [processEntries, hx, hseen] using
          ih (pool ++ [t]) (t.audio_url :: seen) hsub' hnd'

lemma fetchPoolGo_nodup (env : FeedEnv) (minReq : Nat) :
    ∀ (feeds : List FeedId) (pool : List Track) (seen : List String),
    (∀ u ∈ pool.map Track.audio_url, u ∈ seen) →
    (pool.map Track.audio_url).Nodup →
    ((fetchPoolGo env minReq feeds pool seen).map Track.audio_url).Nodup := by
  intro feeds
  induction feeds with
  | nil => intro pool seen _ hnd; simpa [fetchPoolGo] using hnd
  | cons f rest ih =>
    intro pool seen hsub hnd
    cases hf : env f with
    | none => simpa [fetchPoolGo, hf] using ih pool seen hsub hnd
    | some entries =>
      have hinv := processEntries_inv entries pool seen hsub hnd
      by_cases hbrk : max 12 minReq ≤ (processEntries entries pool seen).1.length
      · simpa [fetchPoolGo, hf, hbrk] using hinv.2
      · simpa [fetchPoolGo, hf, hbrk] using
          ih (processEntries entries pool seen).1 (processEntries entries pool seen).2
            hinv.1 hinv.2

lemma fetchPool_nodup (env : FeedEnv) (feeds : List FeedId) (minReq : Nat) :
    ((fetchPool env feeds minReq).map Track.audio_url).Nodup :=
  fetchPoolGo_nodup env minReq feeds [] [] (by simp) (by simp)

/-! ### C1 — dedup key of discovery results -/

/-- Environment refuting spec-key dedup: the Pop feed yields two entries that
agree on title/artist up to case and spacing but carry different audio URLs. -/
def envC1 : FeedEnv := fun f =>
  match f with
  | .pop => some
      [ { links := [{ href := "http://x/a.mp3" }],
          title := some "Song X", author := some "Artist A" },
        { links := [{ href := "http://x/b.mp3" }],
          title := some "song  X", author := some "ARTIST  A" } ]
  | _ => none

set_option maxRecDepth 8000 in
/-- C1, counterexample — discovery dedups by exact `audio_url` only: for the
Pop genre under `envC1` it returns two candidates sharing the normalized
`title::artist` identity key, refuting the claimed identity-key dedup. -/
theorem c1_counterexample :
    fetch_tracks_with_fallback true envC1 id 0 "Pop" =
      some ([⟨"Song X", "Artist A", "http://x/a.mp3"⟩,
             ⟨"song X", "ARTIST A", "http://x/b.mp3"⟩], 1) ∧
    identityKey ⟨"Song X", "Artist A", "http://x/a.mp3"⟩ =
      identityKey ⟨"song X", "ARTIST A", "http://x/b.mp3"⟩ := by
  constructor
  · decide
  · decide

/-- C1, amended — the tracks returned by `fetch_tracks_with_fallback` number
at most 2, and whenever the result comes from one of the tiers 1-3 no two of
them share an `audio_url` (the dedup actually performed); the spec's
normalized identity key is not used. -/
theorem c1_amended_dedup (env : FeedEnv) (shuffle : List Track → List Track)
    (ci : Nat) (genre : String) (ts : List Track) (s : Nat)
    (hperm : ∀ l, (shuffle l).Perm l)
    (heq : fetch_tracks_with_fallback true env shuffle ci genre = some (ts, s)) :
    ts.length ≤ 2 ∧ (s ≤ 3 → ((ts.map Track.audio_url).Nodup)) := by
  have hnd : ∀ feeds minReq, (((shuffle (fetchPool env feeds minReq)).map Track.audio_url)).Nodup :=
    fun feeds minReq =>
      (((hperm (fetchPool env feeds minReq)).map Track.audio_url).nodup_iff).mpr
        (fetchPool_nodup env feeds minReq)
  have htake : ∀ (l : List Track), ((l.map Track.audio_url).Nodup) →
      (((l.take 2).map Track.audio_url).Nodup) := by
    intro l hl
    rw [List.map_take]
    exact hl.sublist (List.take_sublist 2 (l.map Track.audio_url))
  simp only [fetch_tracks_with_fallback, fallbackTrace, if_true] at heq
  split at heq
  · rcases Option.some.inj heq with h
    rcases Prod.mk.injEq .. ▸ h with ⟨h1, h2⟩
    subst h1; subst h2
    exact ⟨by simpa using List.length_take_le 2 _, fun _ => htake _ (hnd _ 2)⟩
  · split at heq
    · rcases Option.some.inj heq with h
      rcases Prod.mk.injEq .. ▸ h with ⟨h1, h2⟩
      subst h1; subst h2
      exact ⟨by simpa using List.length_take_le 2 _, fun _ => htake _ (hnd _ 2)⟩
    · split at heq
      · rcases Option.some.inj heq with h
        rcases Prod.mk.injEq .. ▸ h with ⟨h1, h2⟩
        subst h1; subst h2
        exact ⟨by simpa using List.length_take_le 2 _, fun _ => htake _ (hnd _ 2)⟩
      · split at heq
        · rcases Option.some.inj heq with h
          rcases Prod.mk.injEq .. ▸ h with ⟨h1, h2⟩
          subst h1; subst h2
          exact ⟨by decide, fun hle => absurd hle (by decide)⟩
        · rcases Option.some.inj heq with h
          rcases Prod.mk.injEq .. ▸ h with ⟨h1, h2⟩
          subst h1; subst h2
          refine ⟨?_, fun hle => absurd hle (by decide)⟩
          split
          · have := List.length_take_le 1
              (shuffle (fetchPool env (MUSIC_FEEDS_BY_GENRE genre ++
                GENERAL_MUSIC_FEEDS ++ POPULAR_MUSIC_FEEDS) 1))
            simp only [List.length_append, List.length_cons, List.length_nil]
            omega
          · have := List.length_take_le 1
              (shuffle (fetchPool env (MUSIC_FEEDS_BY_GENRE genre ++
                GENERAL_MUSIC_FEEDS ++ POPULAR_MUSIC_FEEDS) 1))
            omega

/-- Witness for the amended C1 at a concrete environment (all feeds failing,
so the emergency fallback is returned). -/
theorem c1_amended_dedup_witness :
    (([] : List Track) ++ EMERGENCY_TRACKS.take 2).length ≤ 2 ∧
    (4 ≤ 3 → (((EMERGENCY_TRACKS.take 2).map Track.audio_url).Nodup)) := by
  have h := c1_amended_dedup (fun _ => none) id 0 "Pop" (EMERGENCY_TRACKS.take 2) 4
    (fun l => List.Perm.refl l) (by decide)
  simpa using h

/-! ### C2 — tier execution order and (non-)carrying of results -/

/-- C2, amended — within one acquisition the stage queries of
`fetch_tracks_with_fallback` are issued strictly in the declared order
1, 2, 3, 4 and no stage is queried twice: the query trace is always one of
`[1]`, `[1,2]`, `[1,2,3]`, `[1,2,3,4]`.  (The carrying-forward part of the
original claim is refuted by `c2_counterexample`: every stage restarts with
an empty pool.) -/
theorem c2_amended_order (env : FeedEnv) (shuffle : List Track → List Track)
    (ci : Nat) (genre : String) :
    (fallbackTrace env shuffle ci genre).1.map Prod.fst ∈
      ([[1], [1, 2], [1, 2, 3], [1, 2, 3, 4]] : List (List Nat)) := by
  unfold fallbackTrace
  dsimp only
  split_ifs <;> simp

/-- Environment for the C2 counterexample: the Pop tier-1 feed yields one
track, the tier-2 general feed yields two different tracks. -/
def envC2 : FeedEnv := fun f =>
  match f with
  | .pop => some [{ links := [{ href := "http://f/a.mp3" }],
                    title := some "Alpha", author := some "AX" }]
  | .general => some [{ links := [{ href := "http://f/b.mp3" }],
                        title := some "Beta", author := some "BX" },
                      { links := [{ href := "http://f/c.mp3" }],
                        title := some "Gamma", author := some "CX" }]
  | _ => none

set_option maxRecDepth 8000 in
/-- C2, counterexample — the unique candidate found by tier 1 is not carried
forward: under `envC2` tier 1 accumulates the `Alpha` track, tier 2 restarts
with an empty pool, and neither tier 2's pool nor the final result contains
the tier-1 candidate. -/
theorem c2_counterexample :
    (fallbackTrace envC2 id 0 "Pop").1 =
      [(1, [⟨"Alpha", "AX", "http://f/a.mp3"⟩]),
       (2, [⟨"Beta", "BX", "http://f/b.mp3"⟩, ⟨"Gamma", "CX", "http://f/c.mp3"⟩])] ∧
    (⟨"Alpha", "AX", "http://f/a.mp3"⟩ : Track) ∉
      [(⟨"Beta", "BX", "http://f/b.mp3"⟩ : Track), ⟨"Gamma", "CX", "http://f/c.mp3"⟩] ∧
    (⟨"Alpha", "AX", "http://f/a.mp3"⟩ : Track) ∉ (fallbackTrace envC2 id 0 "Pop").2.1 := by
  refine ⟨by decide, by decide, by decide⟩

/-! ### C10 — discovery always returns exactly two tracks -/

/-- C10 — provided the HTTP session is initialized, track discovery with
fallback returns normally (no `InsufficientContent`-style failure exists)
with exactly two tracks, the emergency list being non-empty and used to fill
the quota. -/
theorem c10_always_two_tracks (sOk : Bool) (env : FeedEnv)
    (shuffle : List Track → List Track) (ci : Nat) (genre : String)
    (hs : sOk = true) :
    EMERGENCY_TRACKS ≠ [] ∧
    ∃ ts s, fetch_tracks_with_fallback sOk env shuffle ci genre = some (ts, s) ∧
      ts.length = 2 := by
  subst hs
  refine ⟨by decide, ?_⟩
  simp only [fetch_tracks_with_fallback, fallbackTrace, if_true]
  split_ifs with h1 h2 h3 h4 h5
  · exact ⟨_, _, rfl, by rw [List.length_take]; omega⟩
  · exact ⟨_, _, rfl, by rw [List.length_take]; omega⟩
  · exact ⟨_, _, rfl, by rw [List.length_take]; omega⟩
  · exact ⟨_, _, rfl, by decide⟩
  · refine ⟨_, _, rfl, ?_⟩
    have hne : (shuffle (fetchPool env (MUSIC_FEEDS_BY_GENRE genre ++
        GENERAL_MUSIC_FEEDS ++ POPULAR_MUSIC_FEEDS) 1)) ≠ [] := by
      intro hnil
      rw [hnil] at h4
      exact h4 rfl
    have hlen : 0 < (shuffle (fetchPool env (MUSIC_FEEDS_BY_GENRE genre ++
        GENERAL_MUSIC_FEEDS ++ POPULAR_MUSIC_FEEDS) 1)).length :=
      List.length_pos.mpr hne
    simp only [List.length_append, List.length_take, List.length_cons, List.length_nil]
    omega
  · have := List.length_take_le 1 (shuffle (fetchPool env (MUSIC_FEEDS_BY_GENRE genre ++
      GENERAL_MUSIC_FEEDS ++ POPULAR_MUSIC_FEEDS) 1))
    omega

/-- Witness for C10 at a concrete environment in which all feeds fail, so
the emergency fallback fills the quota. -/
theorem c10_always_two_tracks_witness :
    EMERGENCY_TRACKS ≠ [] ∧
    ∃ ts s, fetch_tracks_with_fallback true (fun _ => none) id 0 "Pop" = some (ts, s) ∧
      ts.length = 2 :=
  c10_always_two_tracks true (fun _ => none) id 0 "Pop" rfl

/-! ### C6 — single-candidate outcomes and the `degraded` report -/

/-- Modelled from the spec (section 3): `degraded=true` iff the returned
track list has fewer tracks than the requested quota of 2.  The source has no
such field; this definition exists only to state the spec's property. -/
def degradedSpec (ts : List Track) : Bool := decide (ts.length < 2)

/-- Environment for C6: tiers 1-3 find at most one unique candidate and
tier 4 finds exactly one. -/
def envC6 : FeedEnv := fun f =>
  match f with
  | .general => some [{ links := [{ href := "http://g/only.mp3" }],
                        title := some "Solo", author := some "SX" }]
  | _ => none

set_option maxRecDepth 8000 in
/-- C6, counterexample — discovery across all tiers yields exactly one unique
candidate under `envC6`, yet the result is not degraded in the spec's sense:
the quota is filled with a randomly chosen emergency track, the returned list
has exactly 2 elements, and no duplicate-to-fill / return-as-is policy or
`degraded` flag exists in the code (only `stage_used = 4` is reported). -/
theorem c6_counterexample :
    fetch_tracks_with_fallback true envC6 id 0 "Pop" =
      some ([⟨"Solo", "SX", "http://g/only.mp3"⟩,
             ⟨"SoundHelix Song 1", "SoundHelix",
              "https://www.soundhelix.com/examples/mp3/SoundHelix-Song-1.mp3"⟩], 4) ∧
    degradedSpec [⟨"Solo", "SX", "http://g/only.mp3"⟩,
             ⟨"SoundHelix Song 1", "SoundHelix",
              "https://www.soundhelix.com/examples/mp3/SoundHelix-Song-1.mp3"⟩] = false := by
  refine ⟨by decide, by decide⟩

/-- C6, amended — when tiers 1-3 each produce fewer than 2 unique candidates
and tier 4 produces at least one, the engine fills the quota by appending the
randomly chosen emergency track and reports `stage_used = 4`; the returned
list always has exactly two tracks, so the spec-defined `degraded` flag
(fewer than quota) is never set. -/
theorem c6_amended_fill (env : FeedEnv) (shuffle : List Track → List Track)
    (ci : Nat) (genre : String) (t : Track) (rest : List Track)
    (h1 : (shuffle (fetchPool env (MUSIC_FEEDS_BY_GENRE genre) 2)).length < 2)
    (h2 : (shuffle (fetchPool env GENERAL_MUSIC_FEEDS 2)).length < 2)
    (h3 : (shuffle (fetchPool env POPULAR_MUSIC_FEEDS 2)).length < 2)
    (h4 : shuffle (fetchPool env (MUSIC_FEEDS_BY_GENRE genre ++
        GENERAL_MUSIC_FEEDS ++ POPULAR_MUSIC_FEEDS) 1) = t :: rest) :
    fetch_tracks_with_fallback true env shuffle ci genre =
      some ([t, chooseEmergency ci], 4) ∧
    degradedSpec [t, chooseEmergency ci] = false := by
  constructor
  · simp only [fetch_tracks_with_fallback, fallbackTrace, if_true]
    rw [if_neg (by omega), if_neg (by omega), if_neg (by omega), h4]
    simp
  · simp [degradedSpec]

set_option maxRecDepth 8000 in
/-- Witness for the amended C6 at the concrete environment `envC6`. -/
theorem c6_amended_fill_witness :
    fetch_tracks_with_fallback true envC6 id 0 "Pop" =
      some ([⟨"Solo", "SX", "http://g/only.mp3"⟩, chooseEmergency 0], 4) ∧
    degradedSpec [⟨"Solo", "SX", "http://g/only.mp3"⟩, chooseEmergency 0] = false :=
  c6_amended_fill envC6 id 0 "Pop" ⟨"Solo", "SX", "http://g/only.mp3"⟩ []
    (by decide) (by decide) (by decide) (by decide)

/-! ### C4 — line-count guarantees of quote formatting -/

/-- A chunk or line containing no newline character. -/
def noNlC (ch : List Char) : Prop := '\n' ∉ ch

lemma mungeChar_ne_nl (c : Char) : mungeChar c ≠ '\n' := by
  unfold mungeChar
  split
  · decide
  · rename_i h
    intro hc
    exact h (by simp [hc])

lemma toChunksF_subset : ∀ (fuel : Nat) (l ch : List Char),
    ch ∈ toChunksF fuel l → ∀ c ∈ ch, c ∈ l := by
  intro fuel
  induction fuel with
  | zero => intro l ch h; simp [toChunksF] at h
  | succ n ih =>
    intro l ch h c hc
    cases l with
    | nil => simp [toChunksF] at h
    | cons x rest =>
      by_cases hx : x = ' '
      · simp only [toChunksF, if_pos hx] at h
        rcases List.mem_cons.mp h with h1 | h1
        · subst h1
          exact (List.takeWhile_sublist _).subset hc
        · exact (List.dropWhile_sublist _).subset (ih _ ch h1 c hc)
      · simp only [toChunksF, if_neg hx] at h
        rcases List.mem_cons.mp h with h1 | h1
        · subst h1
          exact (List.takeWhile_sublist _).subset hc
        · exact (List.dropWhile_sublist _).subset (ih _ ch h1 c hc)

lemma wrapLine_noNl (width : Nat) : ∀ (chunks cur : List (List Char)) (curlen : Nat),
    (∀ ch ∈ chunks, noNlC ch) → (∀ ch ∈ cur, noNlC ch) →
    (∀ ch ∈ (wrapLine width chunks cur curlen).1.1, noNlC ch) ∧
    (∀ ch ∈ (wrapLine width chunks cur curlen).2, noNlC ch) := by
  intro chunks
  induction chunks with
  | nil =>
    intro cur curlen _ hcur
    exact ⟨fun ch h => hcur ch (by simpa [wrapLine] using h),
           fun ch h => absurd (show ch ∈ ([] : List (List Char)) by simpa [wrapLine] using h)
             (List.not_mem_nil ch)⟩
  | cons c0 rest ih =>
    intro cur curlen hc hcur
    by_cases hfit : curlen + c0.length ≤ width
    · have hcur' : ∀ ch ∈ cur ++ [c0], noNlC ch := by
        intro ch h
        rcases List.mem_append.mp h with h1 | h1
        · exact hcur ch h1
        · simp only [List.mem_singleton] at h1
          subst h1
          exact hc ch (List.mem_cons_self _ _)
      have h2 := ih (cur ++ [c0]) (curlen + c0.length)
        (fun ch h => hc ch (List.mem_cons_of_mem _ h)) hcur'
      exact ⟨fun ch h => h2.1 ch (by simpa [wrapLine, hfit] using h),
             fun ch h => h2.2 ch (by simpa [wrapLine, hfit] using h)⟩
    · exact ⟨fun ch h => hcur ch (by simpa [wrapLine, hfit] using h),
             fun ch h => hc ch (by simpa [wrapLine, hfit] using h)⟩

lemma handleLong_noNl (width curlen : Nat) (chunks cur : List (List Char))
    (hc : ∀ ch ∈ chunks, noNlC ch) (hcur : ∀ ch ∈ cur, noNlC ch) :
    (∀ ch ∈ (handleLong width curlen chunks cur).1, noNlC ch) ∧
    (∀ ch ∈ (handleLong width curlen chunks cur).2, noNlC ch) := by
  unfold handleLong
  cases chunks with
  | nil => exact ⟨hcur, by simp⟩
  | cons ch0 rest =>
    by_cases hlen : width < ch0.length
    · simp only [if_pos hlen]
      constructor
      · intro ch h
        rcases List.mem_append.mp h with h1 | h1
        · exact hcur ch h1
        · simp only [List.mem_singleton] at h1
          subst h1
          exact fun hnl => hc ch0 (List.mem_cons_self _ _) (List.take_subset _ _ hnl)
      · intro ch h
        rcases List.mem_cons.mp h with h1 | h1
        · subst h1
          exact fun hnl => hc ch0 (List.mem_cons_self _ _) (List.drop_subset _ _ hnl)
        · exact hc ch (List.mem_cons_of_mem _ h1)
    · simp only [if_neg hlen]
      exact ⟨hcur, hc⟩

lemma dropTrailingBlank_subset (cur : List (List Char)) :
    ∀ ch ∈ dropTrailingBlank cur, ch ∈ cur := by
  unfold dropTrailingBlank
  cases h : cur.getLast? with
  | none => exact fun ch hc => hc
  | some c0 =>
    by_cases hb : isBlankChunk c0 = true
    · simp only [hb, if_true]
      exact fun ch hc => (List.dropLast_sublist cur).subset hc
    · simp only [Bool.of_not_eq_true hb, if_false]
      exact fun ch hc => hc

lemma wrapStep_noNl (width : Nat) (chunks lines : List (List Char))
    (hc : ∀ ch ∈ chunks, noNlC ch) (hl : ∀ ln ∈ lines, noNlC ln) :
    (∀ ch ∈ (wrapStep width chunks lines).1, noNlC ch) ∧
    (∀ ln ∈ (wrapStep width chunks lines).2, noNlC ln) := by
  unfold wrapStep
  cases chunks with
  | nil => exact ⟨by simp, hl⟩
  | cons ch0 rest0 =>
    have hc1 : ∀ ch ∈ (if isBlankChunk ch0 && !lines.isEmpty then rest0 else ch0 :: rest0),
        noNlC ch := by
      split
      · exact fun ch h => hc ch (List.mem_cons_of_mem _ h)
      · exact hc
    cases hm : (if isBlankChunk ch0 && !lines.isEmpty then rest0 else ch0 :: rest0) with
    | nil => simp only [hm]; exact ⟨by simp, hl⟩
    | cons a as =>
      rw [hm] at hc1
      simp only [hm]
      have hwl := wrapLine_noNl width (a :: as) [] 0 hc1 (by simp)
      have hhl := handleLong_noNl width (wrapLine width (a :: as) [] 0).1.2
        (wrapLine width (a :: as) [] 0).2 (wrapLine width (a :: as) [] 0).1.1
        hwl.2 hwl.1
      refine ⟨hhl.2, ?_⟩
      intro ln hln
      split at hln
      · exact hl ln hln
      · rcases List.mem_append.mp hln with h1 | h1
        · exact hl ln h1
        · simp only [List.mem_singleton] at h1
          subst h1
          intro hnl
          rcases List.mem_flatten.mp hnl with ⟨l0, hl0, hnl0⟩
          exact hhl.1 l0 (dropTrailingBlank_subset _ l0 hl0) hnl0

lemma wrapChunks_noNl (width : Nat) : ∀ (fuel : Nat) (chunks lines : List (List Char)),
    (∀ ch ∈ chunks, noNlC ch) → (∀ ln ∈ lines, noNlC ln) →
    ∀ ln ∈ wrapChunks width fuel chunks lines, noNlC ln := by
  intro fuel
  induction fuel with
  | zero => intro chunks lines _ hl ln h; exact hl ln (by simpa [wrapChunks] using h)
  | succ n ih =>
    intro chunks lines hc hl ln hln
    cases chunks with
    | nil => exact hl ln (by simpa [wrapChunks] using hln)
    | cons ch0 rest0 =>
      have hstep := wrapStep_noNl width (ch0 :: rest0) lines hc hl
      exact ih (wrapStep width (ch0 :: rest0) lines).1 (wrapStep width (ch0 :: rest0) lines).2
        hstep.1 hstep.2 ln (by simpa [wrapChunks] using hln)

lemma pyWrap_noNl (text : List Char) (width : Nat) :
    ∀ ln ∈ pyWrap text width, noNlC ln := by
  intro ln hln
  unfold pyWrap at hln
  refine wrapChunks_noNl width _ _ [] ?_ (by simp) ln hln
  intro ch hch hnl
  have hmem := toChunksF_subset _ _ ch hch '\n' hnl
  rcases List.mem_map.mp hmem with ⟨c0, _, hc0⟩
  exact mungeChar_ne_nl c0 hc0

lemma count_joinNl_le : ∀ (ls : List (List Char)), (∀ ln ∈ ls, noNlC ln) →
    (joinNl ls).count '\n' + 1 ≤ max 1 ls.length := by
  intro ls
  induction ls with
  | nil => intro _; simp [joinNl]
  | cons l rest ih =>
    intro h
    cases rest with
    | nil =>
      have : l.count '\n' = 0 := List.count_eq_zero_of_not_mem (h l (by simp))
      simp [joinNl, this]
    | cons l2 rest2 =>
      have h1 : l.count '\n' = 0 := List.count_eq_zero_of_not_mem (h l (by simp))
      have h2 := ih (fun ln hln => h ln (List.mem_cons_of_mem _ hln))
      show (l ++ '\n' :: joinNl (l2 :: rest2)).count '\n' + 1 ≤ _
      rw [List.count_append, List.count_cons_self, h1]
      simp only [List.length_cons] at h2 ⊢
      omega

/-- C4, counterexample — the empty input (reachable from `fetch_quote`, e.g.
when an entry's summary cleans to the empty string) makes
`_format_quote_lines` return the single-line default, violating the claimed
2-line minimum. -/
theorem c4_counterexample :
    format_quote_lines "" = "Music is life." ∧
    countLines (format_quote_lines "") = 1 ∧
    ¬ 2 ≤ countLines (format_quote_lines "") := by
  refine ⟨by decide, by decide, by decide⟩

set_option maxRecDepth 40000 in
/-- C4, amended — quote formatting never fails and always returns between 1
and 4 newline-separated lines: the upper bound 4 always holds, and the
300-character punctuation-free input still yields 4 lines via fixed-width
breaking, but short or empty inputs may yield a single line, so the claimed
lower bound of 2 does not hold in general; `fetch_quote` itself (session
initialized) always returns a quote. -/
theorem c4_amended_lines (text : String) :
    (1 ≤ countLines (format_quote_lines text) ∧ countLines (format_quote_lines text) ≤ 4) ∧
    countLines (format_quote_lines (String.mk (List.replicate 300 'a'))) = 4 ∧
    ∀ (qenv : List (Option (List QuoteEntry))) (pick : Nat),
      (fetch_quote true qenv pick).isSome = true := by
  refine ⟨?_, by decide, ?_⟩
  · by_cases htext : text = ""
    · subst htext
      exact ⟨by decide, by decide⟩
    · have hbody : ∀ (w : List (List Char)), (∀ ln ∈ w, noNlC ln) →
          1 ≤ countLines (String.mk (joinNl w)) ∧
            countLines (String.mk (joinNl w)) ≤ max 1 w.length := by
        intro w hw
        have := count_joinNl_le w hw
        exact ⟨Nat.le_add_left 1 _, this⟩
      simp only [format_quote_lines, if_neg htext]
      set w1 := pyWrap text.toList 52 with hw1
      set w2 := if w1.length < 2 then pyWrap (text ++ " Feel every beat.").toList 52 else w1
        with hw2
      have hw2nl : ∀ ln ∈ w2, noNlC ln := by
        rw [hw2]
        split
        · exact pyWrap_noNl _ 52
        · exact pyWrap_noNl _ 52
      set w3 := if 4 < w2.length then w2.take 4 else w2 with hw3
      have hw3nl : ∀ ln ∈ w3, noNlC ln := by
        rw [hw3]
        split
        · exact fun ln hln => hw2nl ln (List.take_subset _ _ hln)
        · exact hw2nl
      have hlen : w3.length ≤ 4 := by
        rw [hw3]
        split
        · simpa using List.length_take_le 4 w2
        · omega
      have hb := hbody w3 hw3nl
      exact ⟨hb.1, le_trans hb.2 (by omega)⟩
  · intro qenv pick
    unfold fetch_quote
    cases quoteEntries qenv with
    | nil => simp
    | cons e rest => simp

/-! ### C5 / C7 — per-candidate download failures -/

lemma downloadLoop_attempts (dl : DlEnv) : ∀ (tracks : List Track) (idx : Nat) (st : St),
    (downloadLoop dl tracks idx st).2.2 = tracks.map Track.audio_url := by
  intro tracks
  induction tracks with
  | nil => intro idx st; rfl
  | cons t rest ih => intro idx st; simp [downloadLoop, ih]

lemma fallbackDl_ok (dl : DlEnv) : ∀ (l : List Track) (st : St),
    (∀ t ∈ l, (dl t.audio_url).isSome = true) →
    ((fallbackDl dl l st).1).isSome = true := by
  intro l
  induction l with
  | nil => intro st _; simp [fallbackDl]
  | cons t rest ih =>
    intro st h
    have ht := h t (List.mem_cons_self _ _)
    cases hdt : dl t.audio_url with
    | none => rw [hdt] at ht; simp at ht
    | some n =>
      simp only [fallbackDl, hdt]
      have hih := ih
        { files := (tmpPath ("fallback_" ++ natName st.ctr ++ ".mp3"), n) :: st.files,
          dirs := st.dirs, ctr := st.ctr + 1 } (fun q hq => h q (List.mem_cons_of_mem _ hq))
      rcases hrec : fallbackDl dl rest
        { files := (tmpPath ("fallback_" ++ natName st.ctr ++ ".mp3"), n) :: st.files,
          dirs := st.dirs, ctr := st.ctr + 1 } with ⟨o, st2⟩
      rw [hrec] at hih
      cases o with
      | none => simp at hih
      | some ps => simp

/-- C5, counterexample — a per-candidate download failure can abort the whole
acquisition: if the single candidate's download fails and the emergency
fallback download then also fails, `download_tracks` raises (returns `none`)
instead of producing a result. -/
theorem c5_counterexample :
    (download_tracks true (fun _ => none) [⟨"T", "A", "http://t/x.mp3"⟩] initSt).1 = none := by
  decide

/-- C5, amended — per-candidate failures inside the main download loop are
caught at the point of occurrence and the loop proceeds to the next
candidate, so every candidate in the input list is attempted regardless of
earlier failures; but when fewer than 2 candidate downloads succeed, the
emergency fill-in downloads run unguarded, so the acquisition aborts only if
one of those fails: whenever the emergency downloads succeed,
`download_tracks` returns normally. -/
theorem c5_amended_skip (dl : DlEnv) (tracks : List Track) (st : St)
    (hem : ∀ t ∈ EMERGENCY_TRACKS, (dl t.audio_url).isSome = true) :
    (downloadLoop dl tracks 1 st).2.2 = tracks.map Track.audio_url ∧
    ((download_tracks true dl tracks st).1).isSome = true := by
  refine ⟨downloadLoop_attempts dl tracks 1 st, ?_⟩
  simp only [download_tracks, Bool.not_true, Bool.false_eq_true, if_false]
  by_cases hlt : (downloadLoop dl tracks 1 st).1.length < 2
  · rw [if_pos hlt]
    have hfb := fallbackDl_ok dl
      (EMERGENCY_TRACKS.take (2 - (downloadLoop dl tracks 1 st).1.length))
      (downloadLoop dl tracks 1 st).2.1
      (fun q hq => hem q (List.take_subset _ _ hq))
    rcases hrec : fallbackDl dl
      (EMERGENCY_TRACKS.take (2 - (downloadLoop dl tracks 1 st).1.length))
      (downloadLoop dl tracks 1 st).2.1 with ⟨o, st2⟩
    rw [hrec] at hfb
    cases o with
    | none => simp at hfb
    | some more => simp
  · rw [if_neg hlt]; simp

/-- Witness for the amended C5: empty candidate list, all downloads succeed. -/
theorem c5_amended_skip_witness :
    (downloadLoop (fun _ => some 1) [] 1 initSt).2.2 = ([] : List Track).map Track.audio_url ∧
    ((download_tracks true (fun _ => some 1) [] initSt).1).isSome = true :=
  c5_amended_skip (fun _ => some 1) [] initSt (by decide)

/-- C7, counterexample — there is no byte-size ceiling: no bound `C` makes
"response failed, or payload empty, or payload exceeds `C` bytes" equivalent
to the failure of a track-asset download, because a download of any size
`C + 1` succeeds. -/
theorem c7_counterexample :
    ¬ ∃ C : Nat, ∀ (dl : DlEnv) (t : Track) (st : St),
      ((downloadOneTrack dl t 1 st).1 = none ↔
        (dl t.audio_url = none ∨ dl t.audio_url = some 0 ∨
          ∃ n, dl t.audio_url = some n ∧ C < n)) := by
  rintro ⟨C, h⟩
  have h1 := h (fun _ => some (C + 1)) ⟨"T", "A", "u"⟩ initSt
  have h2 : (downloadOneTrack (fun _ => some (C + 1)) ⟨"T", "A", "u"⟩ 1 initSt).1 ≠ none := by
    simp [downloadOneTrack]
  exact h2 (h1.mpr (Or.inr (Or.inr ⟨C + 1, rfl, Nat.lt_succ_self C⟩)))

/-- C7, amended — a track-asset download attempt fails exactly when the HTTP
response is a failure or the downloaded payload is empty; no byte-size
ceiling exists, and the image download (API success, URL present, GET
success) succeeds even with an empty payload of any size `n`, including 0. -/
theorem c7_amended_failure_conditions (dl : DlEnv) (t : Track) (idx : Nat) (st : St)
    (e : ImgEnv) (u : String) (n : Nat) (st' : St) :
    (((downloadOneTrack dl t idx st).1 = none) ↔
      (dl t.audio_url = none ∨ dl t.audio_url = some 0)) ∧
    (e.apiOk = true → e.imageUrl = some u → e.imgDl = some n →
      ((fetch_unsplash_image true e st').1).isSome = true) := by
  constructor
  · cases hdl : dl t.audio_url with
    | none => simp [downloadOneTrack, hdl]
    | some m =>
      by_cases hm : m = 0
      · subst hm; simp [downloadOneTrack, hdl]
      · simp [downloadOneTrack, hdl, hm]
  · intro hapi hurl hdl
    simp [fetch_unsplash_image, hapi, hurl, hdl]

/-- Witness for the amended C7: a failing download environment for the track
part, and a successful empty-payload image fetch. -/
theorem c7_amended_failure_conditions_witness :
    (((downloadOneTrack (fun _ => none) ⟨"T", "A", "u"⟩ 1 initSt).1 = none) ↔
      ((fun _ => none : DlEnv) "u" = none ∨ (fun _ => none : DlEnv) "u" = some 0)) ∧
    ((fetch_unsplash_image true ⟨true, some "iu", some 0⟩ initSt).1).isSome = true :=
  ⟨(c7_amended_failure_conditions (fun _ => none) ⟨"T", "A", "u"⟩ 1 initSt
      ⟨true, some "iu", some 0⟩ "iu" 0 initSt).1,
   (c7_amended_failure_conditions (fun _ => none) ⟨"T", "A", "u"⟩ 1 initSt
      ⟨true, some "iu", some 0⟩ "iu" 0 initSt).2 rfl rfl rfl⟩

/-! ### C3 — no rollback of written assets on failure -/

lemma eraseFile_cons_self (fs : List (String × Nat)) (p : String) (n : Nat) :
    eraseFile ((p, n) :: fs) p = fs := by
  simp [eraseFile]

lemma downloadOneTrack_suffix (dl : DlEnv) (t : Track) (idx : Nat) (st : St) :
    List.IsSuffix st.files (((downloadOneTrack dl t idx st).2).files) := by
  unfold downloadOneTrack
  cases hdl : dl t.audio_url with
  | none => exact List.suffix_rfl
  | some n =>
    by_cases hn : n = 0
    · subst hn
      simp only [if_pos rfl, eraseFile_cons_self]
      exact List.suffix_rfl
    · simp only [if_neg hn]
      exact List.suffix_cons _ _

lemma downloadLoop_suffix (dl : DlEnv) : ∀ (tracks : List Track) (idx : Nat) (st : St),
    List.IsSuffix st.files (((downloadLoop dl tracks idx st).2.1).files) := by
  intro tracks
  induction tracks with
  | nil => intro idx st; exact List.suffix_rfl
  | cons t rest ih =>
    intro idx st
    simp only [downloadLoop]
    exact (downloadOneTrack_suffix dl t idx st).trans
      (ih (idx + 1) (downloadOneTrack dl t idx st).2)

lemma fallbackDl_suffix (dl : DlEnv) : ∀ (l : List Track) (st : St),
    List.IsSuffix st.files (((fallbackDl dl l st).2).files) := by
  intro l
  induction l with
  | nil => intro st; exact List.suffix_rfl
  | cons t rest ih =>
    intro st
    cases hdt : dl t.audio_url with
    | none => simp only [fallbackDl, hdt]; exact List.suffix_rfl
    | some n =>
      simp only [fallbackDl, hdt]
      have hsuf : List.IsSuffix st.files
          ((tmpPath ("fallback_" ++ natName st.ctr ++ ".mp3"), n) :: st.files) :=
        List.suffix_cons _ _
      have hih := ih
        { files := (tmpPath ("fallback_" ++ natName st.ctr ++ ".mp3"), n) :: st.files,
          dirs := st.dirs, ctr := st.ctr + 1 }
      rcases hrec : fallbackDl dl rest
        { files := (tmpPath ("fallback_" ++ natName st.ctr ++ ".mp3"), n) :: st.files,
          dirs := st.dirs, ctr := st.ctr + 1 } with ⟨o, st2⟩
      rw [hrec] at hih
      cases o with
      | none => exact hsuf.trans hih
      | some ps => exact hsuf.trans hih

lemma download_tracks_suffix (sOk : Bool) (dl : DlEnv) (tracks : List Track) (st : St) :
    List.IsSuffix st.files (((download_tracks sOk dl tracks st).2).files) := by
  cases sOk with
  | false => exact List.suffix_rfl
  | true =>
    simp only [download_tracks, Bool.not_true, Bool.false_eq_true, if_false]
    by_cases hlt : (downloadLoop dl tracks 1 st).1.length < 2
    · rw [if_pos hlt]
      have h1 := downloadLoop_suffix dl tracks 1 st
      have h2 := fallbackDl_suffix dl
        (EMERGENCY_TRACKS.take (2 - (downloadLoop dl tracks 1 st).1.length))
        (downloadLoop dl tracks 1 st).2.1
      rcases hrec : fallbackDl dl
        (EMERGENCY_TRACKS.take (2 - (downloadLoop dl tracks 1 st).1.length))
        (downloadLoop dl tracks 1 st).2.1 with ⟨o, st2⟩
      rw [hrec] at h2
      cases o with
      | none => exact h1.trans h2
      | some more => exact h1.trans h2
    · rw [if_neg hlt]
      exact downloadLoop_suffix dl tracks 1 st

lemma fetch_unsplash_image_ok {e : ImgEnv} {st st1 : St} {ip : String}
    (h : fetch_unsplash_image true e st = (some ip, st1)) :
    ∃ n, ip = tmpPath ("image_" ++ natName st.ctr ++ ".jpg") ∧
      st1.files = (ip, n) :: st.files := by
  unfold fetch_unsplash_image at h
  simp only [Bool.not_true, Bool.false_eq_true, if_false] at h
  cases hapi : e.apiOk with
  | false => rw [hapi] at h; simp at h
  | true =>
    rw [hapi] at h
    simp only [Bool.not_true, Bool.false_eq_true, if_false] at h
    cases hurl : e.imageUrl with
    | none => rw [hurl] at h; simp at h
    | some u =>
      rw [hurl] at h
      cases hdl : e.imgDl with
      | none => simp [hdl] at h
      | some n =>
        simp only [hdl] at h
        rcases Prod.mk.injEq .. ▸ h with ⟨h1, h2⟩
        rcases Option.some.inj h1 with h1
        exact ⟨n, h1.symm, by rw [← h2, ← h1]⟩

/-- Environment for C3: the image fetch succeeds and writes a file, then
every track download (including the unguarded emergency fallback) fails, so
the acquisition fails after an asset was written. -/
def envC3 : AcqEnv :=
  { feedEnv := fun _ => none, qenv := [], qpick := 0,
    img := { apiOk := true, imageUrl := some "http://img/u", imgDl := some 5 },
    dl := fun _ => none, shuffle := id, choiceIdx := 0 }

/-- C3, counterexample — an acquisition that fails after the image asset was
written leaves that file on disk: starting from an empty filesystem, the
attempt under `envC3` fails (`none`) yet the written image file remains; the
claimed rollback does not happen. -/
theorem c3_counterexample :
    (genre_selected_core true envC3 "Pop" initSt).1 = none ∧
    (genre_selected_core true envC3 "Pop" initSt).2.files =
      [("/tmp/music_channel_bot/image_0.jpg", 5)] := by
  refine ⟨by decide, by decide⟩

/-- C3, amended — when an acquisition fails after assets were written, no
rollback is performed: the `except` handler of `genre_selected` deletes
nothing, so if the image was fetched successfully and track downloading then
raised, the acquisition reports failure while the image file is still on
disk, and every pre-existing file also remains untouched. -/
theorem c3_amended_no_rollback (e : AcqEnv) (genre : String) (st : St)
    (q ip : String) (st1 : St)
    (hq : fetch_quote true e.qenv e.qpick = some q)
    (himg : fetch_unsplash_image true e.img st = (some ip, st1))
    (hdl : (download_tracks true e.dl
        (fallbackTrace e.feedEnv e.shuffle e.choiceIdx genre).2.1 st1).1 = none) :
    (genre_selected_core true e genre st).1 = none ∧
    ip ∈ ((genre_selected_core true e genre st).2).files.map Prod.fst ∧
    List.IsSuffix st.files (((genre_selected_core true e genre st).2).files) := by
  have hsuf := download_tracks_suffix true e.dl
    (fallbackTrace e.feedEnv e.shuffle e.choiceIdx genre).2.1 st1
  rcases fetch_unsplash_image_ok himg with ⟨n, _, hfiles⟩
  simp only [genre_selected_core, hq, himg, fetch_tracks_with_fallback, if_true]
  rcases hdt : download_tracks true e.dl
      (fallbackTrace e.feedEnv e.shuffle e.choiceIdx genre).2.1 st1 with ⟨o, st2⟩
  rw [hdt] at hdl hsuf
  simp only at hdl
  subst hdl
  refine ⟨rfl, ?_, ?_⟩
  · have hmem : (ip, n) ∈ st2.files := hsuf.subset (by rw [hfiles]; exact List.mem_cons_self _ _)
    exact List.mem_map.mpr ⟨(ip, n), hmem, rfl⟩
  · have h0 : List.IsSuffix st.files st1.files := by
      rw [hfiles]; exact List.suffix_cons _ _
    exact h0.trans hsuf

/-- Witness for the amended C3 at the concrete environment `envC3`. -/
theorem c3_amended_no_rollback_witness :
    (genre_selected_core true envC3 "Pop" initSt).1 = none ∧
    "/tmp/music_channel_bot/image_0.jpg" ∈
      ((genre_selected_core true envC3 "Pop" initSt).2).files.map Prod.fst ∧
    List.IsSuffix initSt.files (((genre_selected_core true envC3 "Pop" initSt).2).files) :=
  c3_amended_no_rollback envC3 "Pop" initSt
    ("Music gives a soul to the universe, wings to the mind, " ++
      "flight to the imagination, and life to everything.")
    "/tmp/music_channel_bot/image_0.jpg"
    { files := [("/tmp/music_channel_bot/image_0.jpg", 5)], dirs := [temp_root], ctr := 1 }
    (by decide) (by decide) (by decide)

/-! ### C8 — one shared temp directory, release removes files only -/

lemma digitChar_ne_slash (d : Nat) : digitChar d ≠ '/' := by
  unfold digitChar
  split <;> decide

lemma natDigitsF_ne_slash : ∀ (fuel n : Nat), ∀ c ∈ natDigitsF fuel n, c ≠ '/' := by
  intro fuel
  induction fuel with
  | zero => intro n c hc; simp [natDigitsF] at hc
  | succ f ih =>
    intro n c hc
    by_cases hn : n < 10
    · simp only [natDigitsF, if_pos hn, List.mem_singleton] at hc
      subst hc
      exact digitChar_ne_slash n
    · simp only [natDigitsF, if_neg hn] at hc
      rcases List.mem_append.mp hc with h1 | h1
      · exact ih (n / 10) c h1
      · simp only [List.mem_singleton] at h1
        subst h1
        exact digitChar_ne_slash (n % 10)

/-- A file name free of path separators. -/
def noSlash (s : String) : Prop := ∀ c ∈ s.toList, c ≠ '/'

lemma noSlash_natName (n : Nat) : noSlash (natName n) :=
  fun c hc => natDigitsF_ne_slash (n + 1) n c hc

lemma noSlash_append {a b : String} (ha : noSlash a) (hb : noSlash b) :
    noSlash (a ++ b) := by
  intro c hc
  rw [show (a ++ b).toList = a.toList ++ b.toList from String.data_append a b] at hc
  rcases List.mem_append.mp hc with h | h
  · exact ha c h
  · exact hb c h

lemma dropWhile_until_slash : ∀ (m t : List Char), (∀ c ∈ m, c ≠ '/') →
    (m ++ '/' :: t).dropWhile (fun c => c ≠ '/') = '/' :: t := by
  intro m
  induction m with
  | nil => intro t _; simp [List.dropWhile]
  | cons c cs ih =>
    intro t h
    have hc : c ≠ '/' := h c (List.mem_cons_self _ _)
    simp only [List.cons_append, List.dropWhile_cons]
    rw [if_pos (by simpa using hc)]
    exact ih t (fun x hx => h x (List.mem_cons_of_mem _ hx))

lemma parentDir_tmpPath {nm : String} (h : noSlash nm) :
    parentDir (tmpPath nm) = temp_root := by
  unfold parentDir parentDirL tmpPath
  have htl : (temp_root ++ "/" ++ nm).toList = temp_root.toList ++ '/' :: nm.toList := by
    rw [show (temp_root ++ "/" ++ nm).toList =
        (temp_root ++ "/").toList ++ nm.toList from String.data_append _ _,
      show (temp_root ++ "/").toList = temp_root.toList ++ "/".toList from
        String.data_append _ _]
    simp
  rw [htl, List.reverse_append, List.reverse_cons, List.append_assoc]
  simp only [List.singleton_append]
  rw [dropWhile_until_slash nm.toList.reverse temp_root.toList.reverse
    (fun c hc => h c (List.mem_reverse.mp hc))]
  simp

/-- The image path written by a successful image fetch lies in the shared
temp directory. -/
lemma imagePath_in_temp_root (ctr : Nat) :
    parentDir (tmpPath ("image_" ++ natName ctr ++ ".jpg")) = temp_root :=
  parentDir_tmpPath
    (noSlash_append (noSlash_append (by intro c hc; fin_cases hc <;> decide)
      (noSlash_natName ctr)) (by intro c hc; fin_cases hc <;> decide))

lemma downloadOneTrack_path (dl : DlEnv) (t : Track) (idx : Nat) (st : St) :
    ∀ p, (downloadOneTrack dl t idx st).1 = some p → parentDir p = temp_root := by
  intro p hp
  unfold downloadOneTrack at hp
  cases hdl : dl t.audio_url with
  | none => rw [hdl] at hp; simp at hp
  | some n =>
    rw [hdl] at hp
    by_cases hn : n = 0
    · subst hn; simp at hp
    · simp only [if_neg hn] at hp
      rcases Option.some.inj hp with hp
      rw [← hp]
      exact parentDir_tmpPath
        (noSlash_append (noSlash_append (noSlash_append (noSlash_append
          (by intro c hc; fin_cases hc <;> decide) (noSlash_natName idx))
          (by intro c hc; fin_cases hc <;> decide)) (noSlash_natName st.ctr))
          (by intro c hc; fin_cases hc <;> decide))

lemma downloadLoop_paths (dl : DlEnv) : ∀ (tracks : List Track) (idx : Nat) (st : St),
    ∀ p ∈ (downloadLoop dl tracks idx st).1, parentDir p = temp_root := by
  intro tracks
  induction tracks with
  | nil => intro idx st p hp; simp [downloadLoop] at hp
  | cons t rest ih =>
    intro idx st p hp
    simp only [downloadLoop] at hp
    cases hr : (downloadOneTrack dl t idx st).1 with
    | none =>
      rw [hr] at hp
      exact ih (idx + 1) (downloadOneTrack dl t idx st).2 p hp
    | some p0 =>
      rw [hr] at hp
      rcases List.mem_cons.mp hp with hp1 | hp1
      · subst hp1
        exact downloadOneTrack_path dl t idx st p hr
      · exact ih (idx + 1) (downloadOneTrack dl t idx st).2 p hp1

lemma fallbackDl_paths (dl : DlEnv) : ∀ (l : List Track) (st : St) (ps : List String),
    (fallbackDl dl l st).1 = some ps → ∀ p ∈ ps, parentDir p = temp_root := by
  intro l
  induction l with
  | nil =>
    intro st ps h p hp
    rcases Option.some.inj (by simpa [fallbackDl] using h) with h1
    rw [h1] at hp
    exact absurd hp (List.not_mem_nil p)
  | cons t rest ih =>
    intro st ps h p hp
    cases hdt : dl t.audio_url with
    | none => simp [fallbackDl, hdt] at h
    | some n =>
      simp only [fallbackDl, hdt] at h
      rcases hrec : fallbackDl dl rest
        { files := (tmpPath ("fallback_" ++ natName st.ctr ++ ".mp3"), n) :: st.files,
          dirs := st.dirs, ctr := st.ctr + 1 } with ⟨o, st2⟩
      rw [hrec] at h
      cases o with
      | none => simp at h
      | some ps0 =>
        simp only at h
        rcases Option.some.inj h with h1
        rw [← h1] at hp
        rcases List.mem_cons.mp hp with hp1 | hp1
        · subst hp1
          exact parentDir_tmpPath
            (noSlash_append (noSlash_append (by intro c hc; fin_cases hc <;> decide)
              (noSlash_natName st.ctr)) (by intro c hc; fin_cases hc <;> decide))
        · exact ih _ ps0 (by rw [hrec]) p hp1

lemma download_tracks_paths (dl : DlEnv) (tracks : List Track) (st : St)
    (ps : List String) (h : (download_tracks true dl tracks st).1 = some ps) :
    ∀ p ∈ ps, parentDir p = temp_root := by
  intro p hp
  simp only [download_tracks, Bool.not_true, Bool.false_eq_true, if_false] at h
  by_cases hlt : (downloadLoop dl tracks 1 st).1.length < 2
  · rw [if_pos hlt] at h
    rcases hrec : fallbackDl dl
      (EMERGENCY_TRACKS.take (2 - (downloadLoop dl tracks 1 st).1.length))
      (downloadLoop dl tracks 1 st).2.1 with ⟨o, st2⟩
    rw [hrec] at h
    cases o with
    | none => simp at h
    | some more =>
      simp only at h
      rcases Option.some.inj h with h1
      rw [← h1] at hp
      have hmem := List.take_subset 2 _ hp
      rcases List.mem_append.mp hmem with h2 | h2
      · exact downloadLoop_paths dl tracks 1 st p h2
      · exact fallbackDl_paths dl _ _ more (by rw [hrec]) p h2
  · rw [if_neg hlt] at h
    rcases Option.some.inj h with h1
    rw [← h1] at hp
    exact downloadLoop_paths dl tracks 1 st p (List.take_subset 2 _ hp)

/-- C8, amended — every acquisition writes its assets into the single shared
directory `/tmp/music_channel_bot`, created once at startup and common to all
acquisitions (files are made unique by name, not by directory); release
(`cleanup_post_payload`) deletes only the payload's files and never removes
any directory. -/
theorem c8_amended_shared_dir (e : AcqEnv) (genre : String) (st : St)
    (p : Payload) (stF : St)
    (h : genre_selected_core true e genre st = (some p, stF)) :
    parentDir p.image_path = temp_root ∧
    (∀ f ∈ p.track_files, parentDir f = temp_root) ∧
    (∀ (q : Payload) (st2 : St), ((cleanup_post_payload q st2).1).dirs = st2.dirs) := by
  unfold genre_selected_core at h
  cases hq : fetch_quote true e.qenv e.qpick with
  | none => rw [hq] at h; simp at h
  | some quote =>
    rw [hq] at h
    rcases himg : fetch_unsplash_image true e.img st with ⟨oimg, st1⟩
    rw [himg] at h
    cases oimg with
    | none => simp at h
    | some ip =>
      simp only [fetch_tracks_with_fallback, if_true] at h
      rcases hdt : download_tracks true e.dl
          (fallbackTrace e.feedEnv e.shuffle e.choiceIdx genre).2.1 st1 with ⟨odl, st2⟩
      rw [hdt] at h
      cases odl with
      | none => simp at h
      | some files =>
        simp only at h
        rcases Prod.mk.injEq .. ▸ h with ⟨h1, _⟩
        rcases Option.some.inj h1 with h1
        rcases fetch_unsplash_image_ok himg with ⟨n, hip, _⟩
        refine ⟨?_, ?_, ?_⟩
        · rw [← h1]
          simp only
          rw [hip]
          exact imagePath_in_temp_root st.ctr
        · rw [← h1]
          simp only
          exact download_tracks_paths e.dl _ st1 files (by rw [hdt])
        · intro q st2'
          exact (cleanupPaths_dirs_ctr (q.image_path :: q.track_files) st2').1

/-- Environment for C8: a fully successful acquisition (feeds fail, so the
emergency tracks are used; image and all downloads succeed). -/
def envC8 : AcqEnv :=
  { feedEnv := fun _ => none, qenv := [], qpick := 0,
    img := { apiOk := true, imageUrl := some "http://img/u", imgDl := some 11 },
    dl := fun _ => some 7, shuffle := id, choiceIdx := 0 }

/-- First acquisition under `envC8`, from the startup state. -/
def c8run1 : Option Payload × St := genre_selected_core true envC8 "Pop" initSt

/-- Second acquisition under `envC8` (later uuid counter). -/
def c8run2 : Option Payload × St :=
  genre_selected_core true envC8 "Pop" { initSt with ctr := 50 }

/-- Payload of the first C8 acquisition. -/
def c8pay1 : Payload := c8run1.1.getD ⟨"", "", "", [], []⟩

/-- Payload of the second C8 acquisition. -/
def c8pay2 : Payload := c8run2.1.getD ⟨"", "", "", [], []⟩

/-- C8, counterexample — two distinct successful acquisitions write their
(distinctly named) image files into the same parent directory, so the
claimed per-acquisition unique directory does not exist; and release leaves
the directory set unchanged (it removes files, never the directory). -/
theorem c8_counterexample :
    c8run1.1.isSome = true ∧ c8run2.1.isSome = true ∧
    c8pay1.image_path ≠ c8pay2.image_path ∧
    parentDir c8pay1.image_path = parentDir c8pay2.image_path ∧
    ((cleanup_post_payload c8pay1 c8run1.2).1).dirs = c8run1.2.dirs ∧
    temp_root ∈ ((cleanup_post_payload c8pay1 c8run1.2).1).dirs := by
  refine ⟨by decide, by decide, by decide, by decide, by decide, by decide⟩

/-- Witness for the amended C8 at the concrete first acquisition. -/
theorem c8_amended_shared_dir_witness :
    parentDir c8pay1.image_path = temp_root ∧
    (∀ f ∈ c8pay1.track_files, parentDir f = temp_root) ∧
    (∀ (q : Payload) (st2 : St), ((cleanup_post_payload q st2).1).dirs = st2.dirs) :=
  c8_amended_shared_dir envC8 "Pop" initSt c8pay1 c8run1.2 (by decide)

end MusicBot
